import Mathlib

/-!
Shallow embedding of the sort/filter logic of
`src/who-metrics-ui/src/components/RepositoriesTable.tsx`.

JavaScript strings are modelled as `List Char`; `toLowerCase` as a
character-wise lowercase map; `localeCompare` as the sign (-1/0/1) of the
lexicographic comparison by character code; JS numbers occurring in the
table data as `Int` (the data-model counts are integers; NaN behaviour is
explicitly left implementation-defined by the spec and is outside the model).
`Array.prototype.sort` with a possibly-throwing comparator callback is
modelled as a stable insertion sort in the `Except` monad: ECMAScript
guarantees a stable sort, and an exception thrown by the callback aborts the
operation, which the `Except.error` result captures.
-/

deriving instance DecidableEq for Except

namespace RepoGrid

/-- A JavaScript string, as its list of characters. -/
abbrev JSString := List Char

/-- Model of `String.prototype.toLowerCase`. -/
def jsToLower (s : JSString) : JSString := s.map Char.toLower

/-- Sign of the lexicographic comparison of two JS strings by character
code; the model of `String.prototype.localeCompare`'s -1/0/1 result. -/
def lexCmp : JSString → JSString → Int
  | [], [] => 0
  | [], _ :: _ => -1
  | _ :: _, [] => 1
  | a :: s, b :: t =>
    if a.toNat < b.toNat then -1
    else if b.toNat < a.toNat then 1
    else lexCmp s t

/-- `hasPre sub s` : `sub` is a prefix of `s`. -/
def hasPre : JSString → JSString → Bool
  | [], _ => true
  | _ :: _, [] => false
  | a :: as, b :: bs => a == b && hasPre as bs

/-- Model of `s.includes(sub)`: `sub` occurs in `s` as a contiguous
substring. -/
def strIncludes : JSString → JSString → Bool
  | [], sub => sub.isEmpty
  | c :: t, sub => hasPre sub (c :: t) || strIncludes t sub

/-- One repository record (`type Repo` in the source, inferred from
`data.json`): the three string fields and the ten numeric count fields the
component sorts and filters on. -/
structure Repo where
  repositoryName : JSString
  repoName : JSString
  licenseName : JSString
  closedIssuesCount : Int
  collaboratorsCount : Int
  discussionsCount : Int
  forksCount : Int
  issuesCount : Int
  mergedPullRequestsCount : Int
  openIssuesCount : Int
  openPullRequestsCount : Int
  projectsCount : Int
  watchersCount : Int
deriving DecidableEq

/-- The component's `Filter` type.  `collaboratorsCount` is built by the
two range inputs as a two-slot array whose entries may be `undefined`,
modelled as an optional pair of optional bounds. -/
structure Filter where
  repositoryName : Option JSString := none
  licenseName : Option (List JSString) := none
  collaboratorsCount : Option (Option Int × Option Int) := none
deriving DecidableEq

/-- Sort direction of `react-data-grid`'s `SortColumn`. -/
inductive SortDirection where
  | ASC
  | DESC
deriving DecidableEq

/-- `react-data-grid`'s `SortColumn`: a column key and a direction. -/
structure SortColumn where
  columnKey : String
  direction : SortDirection
deriving DecidableEq

/-- `type Comparator = (a: Repo, b: Repo) => number`. -/
abbrev Comparator := Repo → Repo → Int

/-- The number-based comparator body of `getComparator`. -/
def numCmp (proj : Repo → Int) : Comparator := fun a b =>
  if proj a = proj b then 0
  else if proj a > proj b then 1
  else -1

/-- The alphabetical comparator body of `getComparator`:
`a[sortColumn].toLowerCase().localeCompare(b[sortColumn].toLowerCase())`. -/
def strCmp (proj : Repo → JSString) : Comparator := fun a b =>
  lexCmp (jsToLower (proj a)) (jsToLower (proj b))

/-- The message of the error thrown by `getComparator` on an unsupported
column key. -/
def unsupportedMsg (k : String) : String :=
  "unsupported sortColumn: \"" ++ k ++ "\""

/-- `getComparator` from the source: number-based sorting for the ten count
columns, alphabetical sorting for the three string columns, and a thrown
error for any other key. -/
def getComparator : String → Except String Comparator
  | "closedIssuesCount" => .ok (numCmp Repo.closedIssuesCount)
  | "collaboratorsCount" => .ok (numCmp Repo.collaboratorsCount)
  | "discussionsCount" => .ok (numCmp Repo.discussionsCount)
  | "forksCount" => .ok (numCmp Repo.forksCount)
  | "issuesCount" => .ok (numCmp Repo.issuesCount)
  | "mergedPullRequestsCount" => .ok (numCmp Repo.mergedPullRequestsCount)
  | "openIssuesCount" => .ok (numCmp Repo.openIssuesCount)
  | "openPullRequestsCount" => .ok (numCmp Repo.openPullRequestsCount)
  | "projectsCount" => .ok (numCmp Repo.projectsCount)
  | "watchersCount" => .ok (numCmp Repo.watchersCount)
  | "licenseName" => .ok (strCmp Repo.licenseName)
  | "repoName" => .ok (strCmp Repo.repoName)
  | "repositoryName" => .ok (strCmp Repo.repositoryName)
  | k => .error (unsupportedMsg k)

/-- The thirteen column keys `getComparator` accepts. -/
def supportedKeys : List String :=
  ["closedIssuesCount", "collaboratorsCount", "discussionsCount",
   "forksCount", "issuesCount", "mergedPullRequestsCount",
   "openIssuesCount", "openPullRequestsCount", "projectsCount",
   "watchersCount", "licenseName", "repoName", "repositoryName"]

/-- The comparator callback `sortRepos` passes to `Array.prototype.sort`:
walk the sort columns in order, return the first nonzero per-column result
(negated for `DESC`), 0 when every column ties.  An unsupported column key
makes `getComparator` throw, modelled as `Except.error`. -/
def combinedCmp : List SortColumn → Repo → Repo → Except String Int
  | [], _, _ => .ok 0
  | sc :: rest, a, b =>
    match getComparator sc.columnKey with
    | .error e => .error e
    | .ok comparator =>
      let compResult := comparator a b
      if compResult ≠ 0 then
        .ok (if sc.direction = SortDirection.ASC then compResult else -compResult)
      else
        combinedCmp rest a b

/-- Stable insertion of `x` into `l` using a possibly-failing comparator:
`x` goes in front of the first element it compares `≤ 0` against, so equal
elements keep their original relative order, as ECMAScript requires of
`Array.prototype.sort`. -/
def orderedInsertE (cmp : Repo → Repo → Except String Int) (x : Repo) :
    List Repo → Except String (List Repo)
  | [] => .ok [x]
  | y :: l =>
    match cmp x y with
    | .error e => .error e
    | .ok c =>
      if c ≤ 0 then .ok (x :: y :: l)
      else
        match orderedInsertE cmp x l with
        | .error e => .error e
        | .ok l2 => .ok (y :: l2)

/-- Stable sort in the `Except` monad: the model of
`[...inputRepos].sort(callback)` with a callback that may throw.  A list of
length at most one performs no comparison, exactly as in JS. -/
def insertionSortE (cmp : Repo → Repo → Except String Int) :
    List Repo → Except String (List Repo)
  | [] => .ok []
  | x :: l =>
    match insertionSortE cmp l with
    | .error e => .error e
    | .ok l2 => orderedInsertE cmp x l2

/-- `sortRepos` from the source.  `repos` is the module-level global
collection; note that the empty-`sortColumns` branch returns that global
collection, not the `inputRepos` argument. -/
def sortRepos (repos : List Repo) (sortColumns : List SortColumn)
    (inputRepos : List Repo) : Except String (List Repo) :=
  if sortColumns.length = 0 then .ok repos
  else insertionSortE (combinedCmp sortColumns) inputRepos

/-- The name conjunct of the `filterRepos` predicate:
`globalFilters.repositoryName ? repo.repositoryName.includes(...) : true`.
An absent or empty filter string is falsy in JS, so it imposes no
constraint. -/
def nameKeep (f : Filter) (repo : Repo) : Bool :=
  match f.repositoryName with
  | none => true
  | some s => if s.isEmpty then true else strIncludes repo.repositoryName s

/-- The license conjunct of the `filterRepos` predicate.  The source
expression is
`(licenseName?.length ?? 0 > 0 ? licenseName?.includes(repo.licenseName) : true) || licenseName?.includes('all')`;
`>` binds tighter than `??`, so the ternary condition is
`licenseName?.length ?? false`, which is truthy exactly when the list is
present and non-empty. -/
def licenseKeep (f : Filter) (repo : Repo) : Bool :=
  (match f.licenseName with
   | none => true
   | some l => if l.length ≠ 0 then l.contains repo.licenseName else true) ||
  (match f.licenseName with
   | none => false
   | some l => l.contains "all".toList)

/-- The collaborator-count conjunct of the `filterRepos` predicate:
`(cc?.[0] ?? 0) <= count && count <= (cc[1] ?? Infinity)` when the filter
array is present (a JS array is always truthy), `true` otherwise. -/
def collabKeep (f : Filter) (repo : Repo) : Bool :=
  match f.collaboratorsCount with
  | none => true
  | some (mn, mx) =>
    decide (mn.getD 0 ≤ repo.collaboratorsCount) &&
    (match mx with
     | none => true
     | some m => decide (repo.collaboratorsCount ≤ m))

/-- The whole predicate `filterRepos` passes to `Array.prototype.filter`. -/
def filterPred (f : Filter) (repo : Repo) : Bool :=
  nameKeep f repo && licenseKeep f repo && collabKeep f repo

/-- `filterRepos` from the source. -/
def filterRepos (f : Filter) (inputRepos : List Repo) : List Repo :=
  inputRepos.filter (filterPred f)

/-- The row sequence the component hands to the data grid:
`rows={filterRepos(sortRepos(repos))}`. -/
def renderRows (repos : List Repo) (f : Filter)
    (sortColumns : List SortColumn) : Except String (List Repo) :=
  match sortRepos repos sortColumns repos with
  | .error e => .error e
  | .ok l => .ok (filterRepos f l)

/-- Modelled from the spec: the table engine "applies filter predicates,
applies a sort comparator chain, and renders the resulting ordered,
filtered sequence" — filter first, then stably sort the filtered result
with the same comparator chain. -/
def specRows (repos : List Repo) (f : Filter)
    (sortColumns : List SortColumn) : Except String (List Repo) :=
  insertionSortE (combinedCmp sortColumns) (filterRepos f repos)

/-- A record with the given names, license and collaborator count, all
other counters zero; shared concrete-input material for witnesses. -/
def mkRepo (nm rk lic : String) (collab : Int) : Repo where
  repositoryName := nm.toList
  repoName := rk.toList
  licenseName := lic.toList
  closedIssuesCount := 0
  collaboratorsCount := collab
  discussionsCount := 0
  forksCount := 0
  issuesCount := 0
  mergedPullRequestsCount := 0
  openIssuesCount := 0
  openPullRequestsCount := 0
  projectsCount := 0
  watchersCount := 0

/-- Sample record named `core-api`, shared by several witnesses. -/
def coreApi : Repo := mkRepo "core-api" "core-api" "MIT" 1

/-- Sample record named `widget`. -/
def widgetRepo : Repo := mkRepo "widget" "widget" "MIT" 1

/-- Sample record named `corefront`. -/
def corefront : Repo := mkRepo "corefront" "corefront" "MIT" 1

/-- Sample records whose collaborator counts are 3, 5, 7, 10, 12. -/
def collabRepos : List Repo :=
  [mkRepo "r3" "r3" "" 3, mkRepo "r5" "r5" "" 5, mkRepo "r7" "r7" "" 7,
   mkRepo "r10" "r10" "" 10, mkRepo "r12" "r12" "" 12]

/-- A supported column key always yields a comparator. -/
theorem exists_getComparator_of_mem {k : String} (hk : k ∈ supportedKeys) :
    ∃ c, getComparator k = .ok c := by
  simp only [supportedKeys, List.mem_cons, List.not_mem_nil, or_false] at hk
  rcases hk with rfl | rfl | rfl | rfl | rfl | rfl | rfl | rfl | rfl | rfl | rfl | rfl | rfl <;>
    exact ⟨_, rfl⟩

/-- An unsupported column key makes `getComparator` throw. -/
theorem getComparator_error {k : String} (hk : k ∉ supportedKeys) :
    getComparator k = .error (unsupportedMsg k) := by
  unfold getComparator
  split
  all_goals first
    | rfl
    | exact absurd (by simp [supportedKeys]) hk

/-- `lexCmp` is reflexively zero. -/
theorem lexCmp_self : ∀ s : JSString, lexCmp s s = 0 := by
  intro s
  induction s with
  | nil => rfl
  | cons a t ih => simp [lexCmp, ih]

/-!  ### Claim C1 — the license-filter dimension  -/

/-- Claim C1 as stated is false on the code: with an empty license list the
filter keeps a record whose license the list cannot contain, while neither
branch of the claimed disjunction holds (the ternary condition
`length ?? (0 > 0)` is falsy for an empty list, so the membership branch is
not evaluated and the record is accepted). -/
theorem c1_license_filter_cex :
    licenseKeep { licenseName := some [] } (mkRepo "a" "a" "MIT" 1) = true ∧
    ¬ ((([] : List JSString).length = 0 ∧ "all".toList ∈ ([] : List JSString)) ∨
        (mkRepo "a" "a" "MIT" 1).licenseName ∈ ([] : List JSString)) := by
  decide

/-- Claim C1 amended: the license dimension keeps a record exactly when the
filter's license list is absent or empty (which accepts every record), or
the list contains the record's `licenseName`, or the list contains the
sentinel `"all"`. -/
theorem c1_license_filter_amended (f : Filter) (repo : Repo) :
    licenseKeep f repo = true ↔
      (f.licenseName.getD [] = [] ∨
        repo.licenseName ∈ f.licenseName.getD [] ∨
        "all".toList ∈ f.licenseName.getD []) := by
  unfold licenseKeep
  cases hf : f.licenseName with
  | none => simp
  | some l =>
    cases l with
    | nil => simp
    | cons x xs => simp

/-!  ### Claim C3 — sorting with an empty SortState  -/

/-- Claim C3 as stated is false on the code: sorting a proper subcollection
with an empty `SortState` does not return that subcollection — `sortRepos`
returns the global collection instead. -/
theorem c3_empty_sort_cex :
    sortRepos [mkRepo "a" "a" "" 1, mkRepo "b" "b" "" 1] []
        [mkRepo "a" "a" "" 1] ≠
      .ok [mkRepo "a" "a" "" 1] := by
  decide

/-- Claim C3 amended: sorting with an empty `SortState` returns the global
collection in its original insertion order (so it is a no-op exactly when
the input is that global collection, as it is in the rendering pipeline),
and the filter step still applies to the result afterward. -/
theorem c3_empty_sort_amended (repos input : List Repo) (f : Filter) :
    sortRepos repos [] input = .ok repos ∧
    renderRows repos f [] = .ok (filterRepos f repos) :=
  ⟨rfl, rfl⟩

/-!  ### Claim C4 — the sentinel `"all"`  -/

/-- Claim C4: when the license list contains the sentinel `"all"` and the
other filter dimensions are unset, filtering returns the full collection,
whatever else the license list holds. -/
theorem c4_sentinel_all (f : Filter) (l : List JSString) (repos : List Repo)
    (hn : f.repositoryName = none) (hc : f.collaboratorsCount = none)
    (hl : f.licenseName = some l) (hall : "all".toList ∈ l) :
    filterRepos f repos = repos := by
  have hp : ∀ repo, filterPred f repo = true := by
    intro repo
    unfold filterPred nameKeep licenseKeep collabKeep
    rw [hn, hc, hl]
    simp
    exact Or.inr hall
  exact List.filter_eq_self.mpr fun a _ => hp a

/-- Witness for C4 at a concrete filter and collection. -/
theorem c4_sentinel_all_witness :
    filterRepos { licenseName := some ["all".toList, "GPL".toList] }
      [coreApi, widgetRepo] = [coreApi, widgetRepo] :=
  c4_sentinel_all _ _ _ rfl rfl rfl (by decide)

/-!  ### Claim C8 — the name filter  -/

/-- Claim C8: for a present, non-empty name-filter string the record is kept
iff its `repositoryName` contains the string as a literal substring; the
match is case-sensitive, and on `{core-api, widget, corefront}` the filter
string `core` keeps exactly `{core-api, corefront}`. -/
theorem c8_name_filter :
    (∀ (f : Filter) (s : JSString) (repo : Repo),
        f.repositoryName = some s → s ≠ [] →
        (nameKeep f repo = true ↔ strIncludes repo.repositoryName s = true)) ∧
    filterRepos { repositoryName := some "core".toList }
      [coreApi, widgetRepo, corefront] = [coreApi, corefront] ∧
    nameKeep { repositoryName := some "Core".toList } coreApi = false := by
  refine ⟨?_, by decide, by decide⟩
  intro f s repo hf hs
  unfold nameKeep
  rw [hf]
  simp [List.isEmpty_iff, hs]

/-- Witness for C8 at a concrete filter string and record. -/
theorem c8_name_filter_witness :
    nameKeep { repositoryName := some "core".toList } coreApi = true ↔
      strIncludes coreApi.repositoryName "core".toList = true :=
  c8_name_filter.1 { repositoryName := some "core".toList } "core".toList
    coreApi rfl (by decide)

/-!  ### Claim C9 — the collaborator-count filter  -/

/-- Claim C9: with a `[min, max]` entry the record is kept iff
`min ≤ count ≤ max` (inclusive); an absent `min` defaults to 0, an absent
`max` is unbounded, an absent entry imposes no constraint; the range
`[5, 10]` over counts `{3, 5, 7, 10, 12}` keeps exactly `{5, 7, 10}`. -/
theorem c9_collab_filter :
    (∀ (f : Filter) (repo : Repo) (mn mx : Int),
        f.collaboratorsCount = some (some mn, some mx) →
        (collabKeep f repo = true ↔
          mn ≤ repo.collaboratorsCount ∧ repo.collaboratorsCount ≤ mx)) ∧
    (∀ (f : Filter) (repo : Repo) (mx : Int),
        f.collaboratorsCount = some (none, some mx) →
        (collabKeep f repo = true ↔
          0 ≤ repo.collaboratorsCount ∧ repo.collaboratorsCount ≤ mx)) ∧
    (∀ (f : Filter) (repo : Repo) (mn : Int),
        f.collaboratorsCount = some (some mn, none) →
        (collabKeep f repo = true ↔ mn ≤ repo.collaboratorsCount)) ∧
    (∀ (f : Filter) (repo : Repo),
        f.collaboratorsCount = none → collabKeep f repo = true) ∧
    filterRepos { collaboratorsCount := some (some 5, some 10) } collabRepos =
      [mkRepo "r5" "r5" "" 5, mkRepo "r7" "r7" "" 7, mkRepo "r10" "r10" "" 10] := by
  refine ⟨?_, ?_, ?_, ?_, by decide⟩ <;>
    · intro f repo
      first
        | (intro mn mx h; unfold collabKeep; rw [h]; simp)
        | (intro m h; unfold collabKeep; rw [h]; simp)
        | (intro h; unfold collabKeep; rw [h])

/-- Witness for C9 at a concrete range filter and record. -/
theorem c9_collab_filter_witness :
    collabKeep { collaboratorsCount := some (some 5, some 10) }
        (mkRepo "r7" "r7" "" 7) = true ↔
      5 ≤ (mkRepo "r7" "r7" "" 7).collaboratorsCount ∧
        (mkRepo "r7" "r7" "" 7).collaboratorsCount ≤ 10 :=
  c9_collab_filter.1 { collaboratorsCount := some (some 5, some 10) }
    (mkRepo "r7" "r7" "" 7) 5 10 rfl

/-!  ### Claim C10 — `sortRepos` ignores its input on an empty SortState  -/

/-- Claim C10: with an empty `SortState`, `sortRepos` returns the global
repository collection and ignores `inputRepos` entirely, so any proper
subsetting of the collection in the input is discarded. -/
theorem c10_empty_sort_global (repos input : List Repo) :
    sortRepos repos [] input = .ok repos ∧
    (input ≠ repos → sortRepos repos [] input ≠ .ok input) := by
  refine ⟨rfl, fun h hc => h ?_⟩
  have hr : (Except.ok repos : Except String (List Repo)) = .ok input := hc
  exact (Except.ok.injEq _ _ ▸ hr).symm

/-- Witness for C10 at a concrete proper subcollection. -/
theorem c10_empty_sort_global_witness :
    sortRepos [mkRepo "a" "a" "" 1, mkRepo "b" "b" "" 1] []
        [mkRepo "a" "a" "" 1] =
      .ok [mkRepo "a" "a" "" 1, mkRepo "b" "b" "" 1] ∧
    sortRepos [mkRepo "a" "a" "" 1, mkRepo "b" "b" "" 1] []
        [mkRepo "a" "a" "" 1] ≠
      .ok [mkRepo "a" "a" "" 1] := by
  have h := c10_empty_sort_global
    [mkRepo "a" "a" "" 1, mkRepo "b" "b" "" 1] [mkRepo "a" "a" "" 1]
  exact ⟨h.1, h.2 (by decide)⟩

/-!  ### Claim C2 — unsupported sort keys  -/

/-- A comparator chain whose head column key is unsupported fails on every
comparison. -/
theorem combinedCmp_error_head {k : String} (hk : k ∉ supportedKeys)
    (dir : SortDirection) (rest : List SortColumn) (x y : Repo) :
    combinedCmp (⟨k, dir⟩ :: rest) x y = .error (unsupportedMsg k) := by
  unfold combinedCmp
  rw [getComparator_error hk]

/-- If the comparator callback always fails, sorting a list of at least two
elements fails with that error. -/
theorem insertionSortE_error {cmp : Repo → Repo → Except String Int}
    {e : String} (hcmp : ∀ x y, cmp x y = .error e) :
    ∀ (l : List Repo) (a b : Repo), insertionSortE cmp (a :: b :: l) = .error e := by
  intro l
  induction l with
  | nil => intro a b; simp [insertionSortE, orderedInsertE, hcmp]
  | cons c l ih =>
    intro a b
    show (match insertionSortE cmp (b :: c :: l) with
      | Except.error err => Except.error err
      | Except.ok l2 => orderedInsertE cmp a l2) = Except.error e
    rw [ih b c]

/-- Claim C2: `getComparator` yields a comparator exactly for the thirteen
enumerated sortable keys; any other key raises the unsupported-column
error, which propagates out of the sort operation (the `Except.error`
result) and yields no reordered output. -/
theorem c2_unsupported_sort_column (k : String) :
    ((∃ c, getComparator k = .ok c) ↔ k ∈ supportedKeys) ∧
    (k ∉ supportedKeys → getComparator k = .error (unsupportedMsg k)) ∧
    (∀ (repos : List Repo) (dir : SortDirection) (rest : List SortColumn)
        (a b : Repo) (l : List Repo), k ∉ supportedKeys →
        sortRepos repos (⟨k, dir⟩ :: rest) (a :: b :: l) =
          .error (unsupportedMsg k)) := by
  refine ⟨⟨?_, fun hk => exists_getComparator_of_mem hk⟩,
    fun hk => getComparator_error hk, ?_⟩
  · rintro ⟨c, hcv⟩
    by_contra hk
    rw [getComparator_error hk] at hcv
    exact Except.noConfusion hcv
  · intro repos dir rest a b l hk
    unfold sortRepos
    rw [if_neg (by simp)]
    exact insertionSortE_error (fun x y => combinedCmp_error_head hk dir rest x y) l a b

/-- Witness for C2 at the concrete unsupported key `"foo"`. -/
theorem c2_unsupported_sort_column_witness :
    sortRepos [] [⟨"foo", SortDirection.ASC⟩] [coreApi, widgetRepo] =
      .error (unsupportedMsg "foo") :=
  (c2_unsupported_sort_column "foo").2.2 [] SortDirection.ASC [] coreApi
    widgetRepo [] (by decide)

/-!  ### Claim C7 — case-insensitive string comparators  -/

/-- The three string-sortable column keys. -/
def strKeys : List String := ["licenseName", "repoName", "repositoryName"]

/-- The string field a string-sortable column key designates. -/
def strFieldOf : String → Repo → JSString
  | "licenseName" => Repo.licenseName
  | "repoName" => Repo.repoName
  | _ => Repo.repositoryName

/-- The alphabetical comparator only sees the lowercased projections, so
its output is determined by them and it returns 0 when they agree. -/
theorem strCmp_lower_invariant (proj : Repo → JSString) (a a' b b' : Repo)
    (ha : jsToLower (proj a') = jsToLower (proj a))
    (hb : jsToLower (proj b') = jsToLower (proj b)) :
    strCmp proj a' b' = strCmp proj a b ∧
    (jsToLower (proj a) = jsToLower (proj b) → strCmp proj a b = 0) := by
  refine ⟨?_, fun hab => ?_⟩
  · simp only [strCmp]
    rw [ha, hb]
  · simp only [strCmp]
    rw [hab, lexCmp_self]

/-- Claim C7: for each string-sortable column, the comparator's output is
invariant under changing the case of either input (it only ever sees the
lowercased fields), and two values that agree after lowercasing compare
equal. -/
theorem c7_case_insensitive (k : String) (hk : k ∈ strKeys) (c : Comparator)
    (hc : getComparator k = .ok c) (a a' b b' : Repo)
    (ha : jsToLower (strFieldOf k a') = jsToLower (strFieldOf k a))
    (hb : jsToLower (strFieldOf k b') = jsToLower (strFieldOf k b)) :
    c a' b' = c a b ∧
    (jsToLower (strFieldOf k a) = jsToLower (strFieldOf k b) → c a b = 0) := by
  simp only [strKeys, List.mem_cons, List.not_mem_nil, or_false] at hk
  rcases hk with rfl | rfl | rfl
  · simp only [getComparator, Except.ok.injEq] at hc
    subst hc
    exact strCmp_lower_invariant Repo.licenseName a a' b b' ha hb
  · simp only [getComparator, Except.ok.injEq] at hc
    subst hc
    exact strCmp_lower_invariant Repo.repoName a a' b b' ha hb
  · simp only [getComparator, Except.ok.injEq] at hc
    subst hc
    exact strCmp_lower_invariant Repo.repositoryName a a' b b' ha hb

/-- Witness for C7: `Zebra` versus `zebra` in the `repoName` column. -/
theorem c7_case_insensitive_witness :
    strCmp Repo.repoName (mkRepo "x" "Zebra" "" 0) (mkRepo "y" "zebra" "" 0) =
      strCmp Repo.repoName (mkRepo "x" "zebra" "" 0) (mkRepo "y" "zebra" "" 0) ∧
    strCmp Repo.repoName (mkRepo "x" "zebra" "" 0) (mkRepo "y" "zebra" "" 0) = 0 := by
  have h := c7_case_insensitive "repoName" (by decide) (strCmp Repo.repoName)
    rfl (mkRepo "x" "zebra" "" 0) (mkRepo "x" "Zebra" "" 0)
    (mkRepo "y" "zebra" "" 0) (mkRepo "y" "zebra" "" 0) (by decide) (by decide)
  exact ⟨h.1, h.2 (by decide)⟩

/-!  ### Claim C6 — the multi-column comparator chain  -/

/-- One step of the comparator chain when the head column is supported. -/
theorem combinedCmp_cons_ok (sc : SortColumn) {c : Comparator}
    (hc : getComparator sc.columnKey = .ok c) (rest : List SortColumn)
    (a b : Repo) :
    combinedCmp (sc :: rest) a b =
      if c a b = 0 then combinedCmp rest a b
      else .ok (if sc.direction = SortDirection.ASC then c a b else -(c a b)) := by
  rw [combinedCmp, hc]
  by_cases h : c a b = 0 <;> simp [h]

/-- Claim C6: the combined comparator walks the sort columns in `SortState`
order; a nonzero per-column result is returned at once (negated for
`DESC`), a per-column tie falls through to the remaining columns, and the
chain returns 0 exactly when every column's comparator ties. -/
theorem c6_multi_column (sc : SortColumn) (rest : List SortColumn)
    (a b : Repo) (c : Comparator) (hc : getComparator sc.columnKey = .ok c) :
    (c a b ≠ 0 → combinedCmp (sc :: rest) a b =
      .ok (if sc.direction = SortDirection.ASC then c a b else -(c a b))) ∧
    (c a b = 0 → combinedCmp (sc :: rest) a b = combinedCmp rest a b) ∧
    (∀ cs : List SortColumn, (∀ s ∈ cs, s.columnKey ∈ supportedKeys) →
      (combinedCmp cs a b = .ok 0 ↔
        ∀ s ∈ cs, ∀ c', getComparator s.columnKey = .ok c' → c' a b = 0)) := by
  refine ⟨fun h => ?_, fun h => ?_, fun cs => ?_⟩
  · rw [combinedCmp_cons_ok sc hc, if_neg h]
  · rw [combinedCmp_cons_ok sc hc, if_pos h]
  · induction cs with
    | nil =>
      intro _
      simp [combinedCmp]
    | cons s cs ih =>
      intro hsup
      obtain ⟨c', hc'⟩ := exists_getComparator_of_mem (hsup s (by simp))
      have hrest := ih fun t ht => hsup t (List.mem_cons_of_mem s ht)
      rw [combinedCmp_cons_ok s hc']
      by_cases h : c' a b = 0
      · rw [if_pos h, hrest]
        constructor
        · rintro htail t ht c'' hc''
          rcases List.mem_cons.mp ht with rfl | ht
          · rw [hc''] at hc'
            injection hc' with hcc
            rw [hcc]
            exact h
          · exact htail t ht c'' hc''
        · intro hall t ht c'' hc''
          exact hall t (List.mem_cons_of_mem s ht) c'' hc''
      · rw [if_neg h]
        have hne : (if s.direction = SortDirection.ASC then c' a b else -(c' a b)) ≠ 0 := by
          rcases Decidable.em (s.direction = SortDirection.ASC) with hd | hd <;>
            simp [hd, h]
        constructor
        · intro hok
          injection hok with h0
          exact absurd h0 hne
        · intro hall
          exact absurd (hall s (by simp) c' hc') h

/-- Witness for C6: a tie on the primary `collaboratorsCount` column makes
the chain fall through to the secondary `repoName` column. -/
theorem c6_multi_column_witness :
    combinedCmp [⟨"collaboratorsCount", SortDirection.ASC⟩,
        ⟨"repoName", SortDirection.ASC⟩] coreApi widgetRepo =
      combinedCmp [⟨"repoName", SortDirection.ASC⟩] coreApi widgetRepo := by
  have h := c6_multi_column ⟨"collaboratorsCount", SortDirection.ASC⟩
    [⟨"repoName", SortDirection.ASC⟩] coreApi widgetRepo
    (numCmp Repo.collaboratorsCount) rfl
  exact h.2.1 (by decide)

/-!  ### Claim C5 — the render pipeline versus filter-then-sort

The comparison functions of the component are lawful comparators (total
preorders), so a stable sort commutes with filtering; the machinery below
establishes this and relates the `Except`-monadic sort to the pure
`List.insertionSort`.  -/

/-- `lexCmp` is antisymmetric in the comparator sense. -/
theorem lexCmp_antisymm : ∀ s t : JSString, lexCmp s t = -(lexCmp t s)
  | [], [] => rfl
  | [], _ :: _ => rfl
  | _ :: _, [] => rfl
  | a :: s, b :: t => by
    have hrec := lexCmp_antisymm s t
    show (if a.toNat < b.toNat then (-1 : Int)
        else if b.toNat < a.toNat then 1 else lexCmp s t) =
      -(if b.toNat < a.toNat then (-1 : Int)
        else if a.toNat < b.toNat then 1 else lexCmp t s)
    split_ifs <;> omega

/-- Strict-then-weak transitivity of `lexCmp`. -/
theorem lexCmp_lt_of_lt_of_le : ∀ s t u : JSString,
    lexCmp s t < 0 → lexCmp t u ≤ 0 → lexCmp s u < 0
  | [], [], _ => by
    intro h1 _
    have hv : lexCmp [] [] = 0 := rfl
    omega
  | [], b :: t, [] => by
    intro _ h2
    have hv : lexCmp (b :: t) [] = 1 := rfl
    omega
  | [], b :: t, c :: u => by
    intro _ _
    have hv : lexCmp [] (c :: u) = -1 := rfl
    omega
  | a :: s, [], _ => by
    intro h1 _
    have hv : lexCmp (a :: s) [] = 1 := rfl
    omega
  | a :: s, b :: t, [] => by
    intro _ h2
    have hv : lexCmp (b :: t) [] = 1 := rfl
    omega
  | a :: s, b :: t, c :: u => by
    intro h1 h2
    have h1' : (if a.toNat < b.toNat then (-1 : Int)
        else if b.toNat < a.toNat then 1 else lexCmp s t) < 0 := h1
    have h2' : (if b.toNat < c.toNat then (-1 : Int)
        else if c.toNat < b.toNat then 1 else lexCmp t u) ≤ 0 := h2
    show (if a.toNat < c.toNat then (-1 : Int)
        else if c.toNat < a.toNat then 1 else lexCmp s u) < 0
    split_ifs at h1' h2' ⊢ <;>
      first
        | omega
        | exact lexCmp_lt_of_lt_of_le s t u h1' h2'

/-- Ties compose under `lexCmp`. -/
theorem lexCmp_zero_trans : ∀ s t u : JSString,
    lexCmp s t = 0 → lexCmp t u = 0 → lexCmp s u = 0
  | [], [], _ => fun _ h2 => h2
  | [], b :: t, _ => by
    intro h1 _
    have hv : lexCmp [] (b :: t) = -1 := rfl
    omega
  | a :: s, [], _ => by
    intro h1 _
    have hv : lexCmp (a :: s) [] = 1 := rfl
    omega
  | a :: s, b :: t, [] => by
    intro _ h2
    have hv : lexCmp (b :: t) [] = 1 := rfl
    omega
  | a :: s, b :: t, c :: u => by
    intro h1 h2
    have h1' : (if a.toNat < b.toNat then (-1 : Int)
        else if b.toNat < a.toNat then 1 else lexCmp s t) = 0 := h1
    have h2' : (if b.toNat < c.toNat then (-1 : Int)
        else if c.toNat < b.toNat then 1 else lexCmp t u) = 0 := h2
    show (if a.toNat < c.toNat then (-1 : Int)
        else if c.toNat < a.toNat then 1 else lexCmp s u) = 0
    split_ifs at h1' h2' ⊢ <;>
      first
        | omega
        | exact lexCmp_zero_trans s t u h1' h2'

/-- A lawful JS comparison function: antisymmetric, with strict and tying
transitivity.  Every comparator `getComparator` produces satisfies it. -/
structure IsCmp (e : Comparator) : Prop where
  antisymm : ∀ a b, e a b = -(e b a)
  ltTrans : ∀ {a b d}, e a b < 0 → e b d ≤ 0 → e a d < 0
  zeroTrans : ∀ {a b d}, e a b = 0 → e b d = 0 → e a d = 0

/-- A tie followed by a strict result is strict. -/
theorem IsCmp.zeroLt {e : Comparator} (h : IsCmp e) {a b d : Repo}
    (h1 : e a b = 0) (h2 : e b d < 0) : e a d < 0 := by
  by_contra hcon
  have hda : e d a ≤ 0 := by have := h.antisymm a d; omega
  have hba : e b a < 0 := h.ltTrans h2 hda
  have := h.antisymm a b
  omega

/-- Weak-then-strict transitivity. -/
theorem IsCmp.ltTrans' {e : Comparator} (h : IsCmp e) {a b d : Repo}
    (h1 : e a b ≤ 0) (h2 : e b d < 0) : e a d < 0 := by
  rcases h1.lt_or_eq with hlt | heq
  · exact h.ltTrans hlt (le_of_lt h2)
  · exact h.zeroLt heq h2

/-- Weak transitivity. -/
theorem IsCmp.leTrans {e : Comparator} (h : IsCmp e) {a b d : Repo}
    (h1 : e a b ≤ 0) (h2 : e b d ≤ 0) : e a d ≤ 0 := by
  rcases h1.lt_or_eq with hlt | heq
  · exact le_of_lt (h.ltTrans hlt h2)
  · rcases h2.lt_or_eq with hlt2 | heq2
    · exact le_of_lt (h.zeroLt heq hlt2)
    · exact le_of_eq (h.zeroTrans heq heq2)

/-- Totality of the weak order a lawful comparator induces. -/
theorem IsCmp.leTotal {e : Comparator} (h : IsCmp e) (a b : Repo) :
    e a b ≤ 0 ∨ e b a ≤ 0 := by
  have := h.antisymm a b
  omega

/-- Negating a lawful comparator (the `DESC` direction) keeps it lawful. -/
theorem IsCmp.neg {e : Comparator} (h : IsCmp e) :
    IsCmp (fun a b => -(e a b)) := by
  refine ⟨fun a b => ?_, fun {a b d} h1 h2 => ?_, fun {a b d} h1 h2 => ?_⟩
  · show -(e a b) = -(-(e b a))
    have := h.antisymm a b
    omega
  · have h1' : -(e a b) < 0 := h1
    have h2' : -(e b d) ≤ 0 := h2
    show -(e a d) < 0
    have hba : e b a < 0 := by have := h.antisymm a b; omega
    have hdb : e d b ≤ 0 := by have := h.antisymm b d; omega
    have hda : e d a < 0 := h.ltTrans' hdb hba
    have := h.antisymm a d
    omega
  · have h1' : -(e a b) = 0 := h1
    have h2' : -(e b d) = 0 := h2
    show -(e a d) = 0
    have := h.zeroTrans (by omega : e a b = 0) (by omega : e b d = 0)
    omega

/-- Lexicographic composition of lawful comparators is lawful. -/
theorem IsCmp.lex {e p : Comparator} (he : IsCmp e) (hp : IsCmp p) :
    IsCmp (fun a b => if e a b = 0 then p a b else e a b) := by
  refine ⟨fun a b => ?_, fun {a b d} h1 h2 => ?_, fun {a b d} h1 h2 => ?_⟩
  · show (if e a b = 0 then p a b else e a b) =
      -(if e b a = 0 then p b a else e b a)
    by_cases hab : e a b = 0
    · have hba : e b a = 0 := by have := he.antisymm a b; omega
      rw [if_pos hab, if_pos hba]
      exact hp.antisymm a b
    · have hba : ¬ e b a = 0 := by have := he.antisymm a b; omega
      rw [if_neg hab, if_neg hba]
      exact he.antisymm a b
  · have h1' : (if e a b = 0 then p a b else e a b) < 0 := h1
    have h2' : (if e b d = 0 then p b d else e b d) ≤ 0 := h2
    show (if e a d = 0 then p a d else e a d) < 0
    by_cases hab : e a b = 0 <;> by_cases hbd : e b d = 0
    · rw [if_pos hab] at h1'
      rw [if_pos hbd] at h2'
      rw [if_pos (he.zeroTrans hab hbd)]
      exact hp.ltTrans h1' h2'
    · rw [if_neg hbd] at h2'
      have had : e a d < 0 := he.zeroLt hab (lt_of_le_of_ne h2' hbd)
      rw [if_neg (by omega)]
      exact had
    · rw [if_neg hab] at h1'
      have had : e a d < 0 := he.ltTrans h1' (le_of_eq hbd)
      rw [if_neg (by omega)]
      exact had
    · rw [if_neg hab] at h1'
      rw [if_neg hbd] at h2'
      have had : e a d < 0 := he.ltTrans h1' h2'
      rw [if_neg (by omega)]
      exact had
  · have h1' : (if e a b = 0 then p a b else e a b) = 0 := h1
    have h2' : (if e b d = 0 then p b d else e b d) = 0 := h2
    show (if e a d = 0 then p a d else e a d) = 0
    by_cases hab : e a b = 0 <;> by_cases hbd : e b d = 0
    · rw [if_pos hab] at h1'
      rw [if_pos hbd] at h2'
      rw [if_pos (he.zeroTrans hab hbd)]
      exact hp.zeroTrans h1' h2'
    · rw [if_neg hbd] at h2'
      exact absurd h2' hbd
    · rw [if_neg hab] at h1'
      exact absurd h1' hab
    · rw [if_neg hab] at h1'
      exact absurd h1' hab

/-- The number-based comparator is lawful. -/
theorem isCmp_numCmp (proj : Repo → Int) : IsCmp (numCmp proj) := by
  refine ⟨fun a b => ?_, fun {a b d} h1 h2 => ?_, fun {a b d} h1 h2 => ?_⟩
  · show (if proj a = proj b then (0 : Int) else if proj a > proj b then 1 else -1) =
      -(if proj b = proj a then (0 : Int) else if proj b > proj a then 1 else -1)
    split_ifs <;> omega
  · have h1' : (if proj a = proj b then (0 : Int)
      else if proj a > proj b then 1 else -1) < 0 := h1
    have h2' : (if proj b = proj d then (0 : Int)
      else if proj b > proj d then 1 else -1) ≤ 0 := h2
    show (if proj a = proj d then (0 : Int)
      else if proj a > proj d then 1 else -1) < 0
    split_ifs at h1' h2' ⊢ <;> omega
  · have h1' : (if proj a = proj b then (0 : Int)
      else if proj a > proj b then 1 else -1) = 0 := h1
    have h2' : (if proj b = proj d then (0 : Int)
      else if proj b > proj d then 1 else -1) = 0 := h2
    show (if proj a = proj d then (0 : Int)
      else if proj a > proj d then 1 else -1) = 0
    split_ifs at h1' h2' ⊢ <;> omega

/-- The alphabetical comparator is lawful. -/
theorem isCmp_strCmp (proj : Repo → JSString) : IsCmp (strCmp proj) :=
  ⟨fun _ _ => lexCmp_antisymm _ _,
   fun {_ _ _} => lexCmp_lt_of_lt_of_le _ _ _,
   fun {_ _ _} => lexCmp_zero_trans _ _ _⟩

/-- Every comparator `getComparator` can return is lawful. -/
theorem isCmp_getComparator {k : String} {c : Comparator}
    (hc : getComparator k = .ok c) : IsCmp c := by
  unfold getComparator at hc
  split at hc
  all_goals first
    | · injection hc with h
        subst h
        first
          | exact isCmp_numCmp _
          | exact isCmp_strCmp _
    | exact Except.noConfusion hc

/-- The per-column direction adjustment of the sort loop. -/
def adjustCmp (sc : SortColumn) (c : Comparator) : Comparator := fun a b =>
  if sc.direction = SortDirection.ASC then c a b else -(c a b)

/-- The direction adjustment does not change which pairs tie. -/
theorem adjustCmp_eq_zero_iff (sc : SortColumn) (c : Comparator) (a b : Repo) :
    adjustCmp sc c a b = 0 ↔ c a b = 0 := by
  unfold adjustCmp
  rcases Decidable.em (sc.direction = SortDirection.ASC) with hd | hd <;> simp [hd]

/-- Direction adjustment keeps a comparator lawful. -/
theorem IsCmp.adjust {c : Comparator} (h : IsCmp c) (sc : SortColumn) :
    IsCmp (adjustCmp sc c) := by
  unfold adjustCmp
  rcases Decidable.em (sc.direction = SortDirection.ASC) with hd | hd
  · simp only [hd, if_true]
    exact h
  · simp only [eq_false hd, if_false]
    exact h.neg

/-- The total version of the comparator chain, defined for the reasoning:
it agrees with `combinedCmp` whenever every column key is supported. -/
def pureCmp : List SortColumn → Comparator
  | [], _, _ => 0
  | sc :: rest, a, b =>
    match getComparator sc.columnKey with
    | .error _ => 0
    | .ok c => if c a b = 0 then pureCmp rest a b else adjustCmp sc c a b

/-- One step of `pureCmp` when the head column is supported. -/
theorem pureCmp_cons_ok (sc : SortColumn) {c : Comparator}
    (hc : getComparator sc.columnKey = .ok c) (rest : List SortColumn)
    (a b : Repo) :
    pureCmp (sc :: rest) a b =
      if c a b = 0 then pureCmp rest a b else adjustCmp sc c a b := by
  rw [pureCmp, hc]

/-- On supported columns the monadic chain is the pure chain. -/
theorem combinedCmp_eq_pure : ∀ {cs : List SortColumn},
    (∀ s ∈ cs, s.columnKey ∈ supportedKeys) →
    ∀ a b, combinedCmp cs a b = .ok (pureCmp cs a b)
  | [], _, _, _ => rfl
  | sc :: rest, hsup, a, b => by
    obtain ⟨c, hc⟩ := exists_getComparator_of_mem (hsup sc (by simp))
    rw [combinedCmp_cons_ok sc hc, pureCmp_cons_ok sc hc]
    by_cases h : c a b = 0
    · rw [if_pos h, if_pos h,
        combinedCmp_eq_pure (fun t ht => hsup t (List.mem_cons_of_mem sc ht)) a b]
    · rw [if_neg h, if_neg h]
      rfl

/-- The pure comparator chain of supported columns is lawful. -/
theorem isCmp_pureCmp : ∀ {cs : List SortColumn},
    (∀ s ∈ cs, s.columnKey ∈ supportedKeys) → IsCmp (pureCmp cs)
  | [], _ => by
    refine ⟨fun a b => rfl, fun {a b d} h1 _ => ?_, fun {a b d} _ _ => rfl⟩
    have hv : pureCmp [] a b = 0 := rfl
    omega
  | sc :: rest, hsup => by
    obtain ⟨c, hc⟩ := exists_getComparator_of_mem (hsup sc (by simp))
    have htail : IsCmp (pureCmp rest) :=
      isCmp_pureCmp fun t ht => hsup t (List.mem_cons_of_mem sc ht)
    have hhead : IsCmp (adjustCmp sc c) := (isCmp_getComparator hc).adjust sc
    have heq : pureCmp (sc :: rest) = fun a b =>
        if adjustCmp sc c a b = 0 then pureCmp rest a b else adjustCmp sc c a b := by
      funext a b
      rw [pureCmp_cons_ok sc hc]
      by_cases h : c a b = 0
      · rw [if_pos h, if_pos ((adjustCmp_eq_zero_iff sc c a b).mpr h)]
      · rw [if_neg h, if_neg (fun hz => h ((adjustCmp_eq_zero_iff sc c a b).mp hz))]
    rw [heq]
    exact hhead.lex htail

/-- A comparator callback that never fails makes the monadic insertion
agree with Mathlib's `List.orderedInsert` for the induced weak order. -/
theorem orderedInsertE_eq {cmpE : Repo → Repo → Except String Int}
    {p : Comparator} (h : ∀ a b, cmpE a b = .ok (p a b)) (x : Repo) :
    ∀ l : List Repo,
      orderedInsertE cmpE x l = .ok (List.orderedInsert (fun a b => p a b ≤ 0) x l)
  | [] => rfl
  | y :: l => by
    have hstep : orderedInsertE cmpE x (y :: l) =
        if p x y ≤ 0 then Except.ok (x :: y :: l)
        else match orderedInsertE cmpE x l with
          | Except.error e => Except.error e
          | Except.ok l2 => Except.ok (y :: l2) := by
      rw [orderedInsertE, h x y]
    rw [hstep]
    by_cases hxy : p x y ≤ 0
    · rw [if_pos hxy]
      have hins : List.orderedInsert (fun a b => p a b ≤ 0) x (y :: l) =
          x :: y :: l := by
        rw [List.orderedInsert, if_pos hxy]
      rw [hins]
    · rw [if_neg hxy, orderedInsertE_eq h x l]
      have hins : List.orderedInsert (fun a b => p a b ≤ 0) x (y :: l) =
          y :: List.orderedInsert (fun a b => p a b ≤ 0) x l := by
        rw [List.orderedInsert, if_neg hxy]
      rw [hins]

/-- A comparator callback that never fails makes the monadic sort agree
with Mathlib's `List.insertionSort` for the induced weak order. -/
theorem insertionSortE_eq {cmpE : Repo → Repo → Except String Int}
    {p : Comparator} (h : ∀ a b, cmpE a b = .ok (p a b)) :
    ∀ l : List Repo,
      insertionSortE cmpE l = .ok (List.insertionSort (fun a b => p a b ≤ 0) l)
  | [] => rfl
  | x :: l => by
    rw [insertionSortE, insertionSortE_eq h l]
    exact orderedInsertE_eq h x _

/-- With no sort columns every comparison ties, so the stable sort is the
identity. -/
theorem insertionSortE_nilCols : ∀ l : List Repo,
    insertionSortE (combinedCmp []) l = .ok l
  | [] => rfl
  | x :: l => by
    rw [insertionSortE, insertionSortE_nilCols l]
    cases l <;> rfl

/-- Unfolding the pipeline when the sort succeeds. -/
theorem renderRows_ok {repos : List Repo} {f : Filter} {cs : List SortColumn}
    {l : List Repo} (h : sortRepos repos cs repos = .ok l) :
    renderRows repos f cs = .ok (filterRepos f l) := by
  unfold renderRows
  rw [h]

/-- Inserting an element below the whole list puts it at the head. -/
theorem orderedInsert_head {α : Type} {r : α → α → Prop} [DecidableRel r] {x : α} :
    ∀ {l : List α}, (∀ z ∈ l, r x z) → List.orderedInsert r x l = x :: l
  | [], _ => rfl
  | z :: l, h => by
    unfold List.orderedInsert
    rw [if_pos (h z (by simp))]

/-- `orderedInsert` of a kept element commutes with `filter` on a sorted
list when the order is transitive. -/
theorem filter_orderedInsert_of_pos {α : Type} {r : α → α → Prop} [DecidableRel r]
    (htrans : ∀ a b c, r a b → r b c → r a c) (p : α → Bool) (x : α)
    (hpx : p x = true) :
    ∀ l : List α, List.Sorted r l →
      (List.orderedInsert r x l).filter p = List.orderedInsert r x (l.filter p)
  | [], _ => by simp [List.orderedInsert, hpx]
  | y :: l, hs => by
    have hy : ∀ z ∈ l, r y z := List.rel_of_sorted_cons hs
    have hs' : List.Sorted r l := hs.of_cons
    by_cases hxy : r x y
    · rw [List.orderedInsert, if_pos hxy]
      by_cases hpy : p y = true
      · rw [List.filter_cons, if_pos hpx, List.filter_cons, if_pos hpy,
          List.orderedInsert, if_pos hxy]
      · rw [List.filter_cons, if_pos hpx, List.filter_cons, if_neg hpy,
          orderedInsert_head fun z hz =>
            htrans x y z hxy (hy z (List.mem_of_mem_filter hz))]
    · rw [List.orderedInsert, if_neg hxy]
      by_cases hpy : p y = true
      · rw [List.filter_cons, if_pos hpy,
          filter_orderedInsert_of_pos htrans p x hpx l hs',
          List.filter_cons, if_pos hpy, List.orderedInsert, if_neg hxy]
      · rw [List.filter_cons, if_neg hpy,
          filter_orderedInsert_of_pos htrans p x hpx l hs',
          List.filter_cons, if_neg hpy]

/-- `orderedInsert` of a dropped element disappears under `filter`. -/
theorem filter_orderedInsert_of_neg {α : Type} {r : α → α → Prop} [DecidableRel r]
    (p : α → Bool) (x : α) (hpx : p x = false) :
    ∀ l : List α, (List.orderedInsert r x l).filter p = l.filter p
  | [] => by simp [List.orderedInsert, hpx]
  | y :: l => by
    by_cases hxy : r x y
    · rw [List.orderedInsert, if_pos hxy, List.filter_cons,
        if_neg (by simp [hpx])]
    · rw [List.orderedInsert, if_neg hxy]
      by_cases hpy : p y = true
      · rw [List.filter_cons, if_pos hpy, List.filter_cons, if_pos hpy,
          filter_orderedInsert_of_neg p x hpx l]
      · rw [List.filter_cons, if_neg hpy, List.filter_cons, if_neg hpy,
          filter_orderedInsert_of_neg p x hpx l]

/-- A stable sort for a total, transitive weak order commutes with
filtering. -/
theorem filter_insertionSort {α : Type} {r : α → α → Prop} [DecidableRel r]
    (htrans : ∀ a b c, r a b → r b c → r a c)
    (htotal : ∀ a b, r a b ∨ r b a) (p : α → Bool) :
    ∀ l : List α,
      (List.insertionSort r l).filter p = List.insertionSort r (l.filter p)
  | [] => rfl
  | x :: l => by
    haveI : IsTrans α r := ⟨htrans⟩
    haveI : IsTotal α r := ⟨htotal⟩
    rw [List.insertionSort]
    by_cases hpx : p x = true
    · rw [filter_orderedInsert_of_pos htrans p x hpx _ (List.sorted_insertionSort r _),
        filter_insertionSort htrans htotal p l, List.filter_cons, if_pos hpx,
        List.insertionSort]
    · rw [filter_orderedInsert_of_neg p x (by simpa using hpx) _,
        filter_insertionSort htrans htotal p l, List.filter_cons, if_neg hpx]

/-- Claim C5 as stated is false on the code: with a sort column outside the
supported set, the code's sort-then-filter pipeline throws (the global
collection has two elements, so the sort callback runs and raises), while
filter-then-sort succeeds — the filter first shrinks the collection to a
single record, which sorts without ever invoking the comparator. -/
theorem c5_pipeline_cex :
    renderRows [coreApi, widgetRepo] { repositoryName := some "core".toList }
        [⟨"foo", SortDirection.ASC⟩] ≠
      specRows [coreApi, widgetRepo] { repositoryName := some "core".toList }
        [⟨"foo", SortDirection.ASC⟩] := by
  decide

/-- Claim C5 amended: for every collection, FilterState, and SortState all
of whose column keys are supported, the rendered rows
`filterRepos (sortRepos repos)` equal the spec's filter-then-stable-sort of
the same collection. -/
theorem c5_pipeline_amended (repos : List Repo) (f : Filter)
    (cs : List SortColumn) (hsup : ∀ s ∈ cs, s.columnKey ∈ supportedKeys) :
    renderRows repos f cs = specRows repos f cs := by
  cases cs with
  | nil =>
    rw [renderRows_ok (rfl : sortRepos repos [] repos = .ok repos)]
    unfold specRows
    rw [insertionSortE_nilCols]
  | cons s cs =>
    have hok := combinedCmp_eq_pure hsup
    have hic : IsCmp (pureCmp (s :: cs)) := isCmp_pureCmp hsup
    have hsort : sortRepos repos (s :: cs) repos =
        .ok (List.insertionSort (fun a b => pureCmp (s :: cs) a b ≤ 0) repos) := by
      unfold sortRepos
      rw [if_neg (by simp)]
      exact insertionSortE_eq hok repos
    rw [renderRows_ok hsort]
    unfold specRows
    rw [insertionSortE_eq hok (filterRepos f repos)]
    unfold filterRepos
    have htr : ∀ a b d : Repo, pureCmp (s :: cs) a b ≤ 0 →
        pureCmp (s :: cs) b d ≤ 0 → pureCmp (s :: cs) a d ≤ 0 :=
      fun _ _ _ hab hbd => hic.leTrans hab hbd
    have hto : ∀ a b : Repo,
        pureCmp (s :: cs) a b ≤ 0 ∨ pureCmp (s :: cs) b a ≤ 0 := hic.leTotal
    rw [filter_insertionSort htr hto (filterPred f) repos]

/-- Witness for the amended C5 at a concrete collection, filter and sort. -/
theorem c5_pipeline_amended_witness :
    renderRows [widgetRepo, coreApi] { repositoryName := some "core".toList }
        [⟨"repositoryName", SortDirection.ASC⟩] =
      specRows [widgetRepo, coreApi] { repositoryName := some "core".toList }
        [⟨"repositoryName", SortDirection.ASC⟩] :=
  c5_pipeline_amended [widgetRepo, coreApi]
    { repositoryName := some "core".toList }
    [⟨"repositoryName", SortDirection.ASC⟩] (by decide)

end RepoGrid
